import Mathlib

/-!
# Auxiliary RISC-V core loader and bring-up (`drivers/riscv/sun55iw3/riscv.c`)

A shallow embedding of `update_reset_vec`, `load_image` and `sunxi_riscv_init`.

Modelling conventions.

* Memory is a byte map `Nat → Nat` (address to byte value); multi-byte fields are read
  little-endian, each byte reduced modulo 256.  Pointer arithmetic is done in `Nat`
  (no wrap-around of addresses), which is what the C code does as long as a pointer sum
  stays below `2 ^ BITS_PER_LONG`; a statement about the bytes at a source address says so.
  `u32` arithmetic that can overflow is reduced modulo `2^32`.
* The ELF32 structures are read from memory each time the C code dereferences them, so a
  copy that overwrites a header is visible to the later reads, as in C.  `elf.h` is not
  among the sources; the standard ELF32 field offsets are used.
* `memcpy` reads its source from the memory as it was before the call.
* The four device registers are named symbolically (their numeric addresses are in
  `riscv_reg.h`, which is not among the sources) and live in a register file separate from
  byte memory; a read returns the last value written.  Bit masks are parameters.
* Every externally visible action is appended to a chronological trace.
* `RISCV_DEBUG` printing is not modelled.
-/

namespace Riscv

/-! ## Platform parameters -/

/-- Build-time configuration and constants of headers that are not part of the sources. -/
structure Platform where
  /-- Cache line size in bytes. -/
  CONFIG_SYS_CACHELINE_SIZE : Nat
  /-- Width of `unsigned long` in bits. -/
  BITS_PER_LONG : Nat
  /-- Whether the image verifier is compiled in. -/
  CONFIG_SUNXI_VERIFY_RISCV : Bool
  /-- The external verifier: memory, image address, image length, core id. -/
  sunxi_verify_riscv : (Nat → Nat) → Nat → Nat → Nat → Int
  BIT_RISCV_PUBSRAM_RST : Nat
  BIT_RISCV_PUBSRAM_GATING : Nat
  BIT_RISCV_CFG_RST : Nat
  BIT_RISCV_CFG_GATING : Nat
  BIT_RISCV_CORE_RST : Nat
  BIT_RISCV_APB_DB_RST : Nat
  BIT_RISCV_CLK_GATING : Nat

/-! ## Rounding macros -/

/-- The `w`-bit complement `~x`. -/
def bitNot (w x : Nat) : Nat := 2 ^ w - 1 - x % 2 ^ w

/-- `ROUND_DOWN(a, b) = (a) & ~((b)-1)` evaluated in `w`-bit unsigned arithmetic. -/
def ROUND_DOWN (w a b : Nat) : Nat := a % 2 ^ w &&& bitNot w (b - 1)

/-- `ROUND_UP(a, b) = (((a) + (b)-1) & ~((b)-1))` evaluated in `w`-bit unsigned arithmetic. -/
def ROUND_UP (w a b : Nat) : Nat := (a + b - 1) % 2 ^ w &&& bitNot w (b - 1)

/-- `ROUND_DOWN_CACHE`, applied in the source to an `unsigned long`. -/
def ROUND_DOWN_CACHE (cfg : Platform) (a : Nat) : Nat :=
  ROUND_DOWN cfg.BITS_PER_LONG a cfg.CONFIG_SYS_CACHELINE_SIZE

/-- `ROUND_UP_CACHE`, applied in the source to the `u32` field `p_filesz`. -/
def ROUND_UP_CACHE (cfg : Platform) (a : Nat) : Nat :=
  ROUND_UP 32 a cfg.CONFIG_SYS_CACHELINE_SIZE

/-! ## Address translation -/

/-- One row of the translation table: `{low, high, destination_base}`. -/
structure vaddr_range_t where
  low : Nat
  high : Nat
  destination_base : Nat
deriving DecidableEq, Repr

/-- The static table `addr_mapping` of the source. -/
def addr_mapping : List vaddr_range_t :=
  [ ⟨0x3FFC0000, 0x4003FFFF, 0x07280000⟩,
    ⟨0x40400000, 0x7FFFFFFF, 0x40400000⟩ ]

/-- Whether `a` lies in the closed interval of row `r`. -/
def vaddr_range_t.contains (r : vaddr_range_t) (a : Nat) : Prop := r.low ≤ a ∧ a ≤ r.high

instance (r : vaddr_range_t) (a : Nat) : Decidable (r.contains a) := by
  unfold vaddr_range_t.contains; exact inferInstance

/-- Modelled from the spec: `set_img_va_to_pa` lives in `../common/riscv_img.c`, which is not
among the sources.  Linear scan of the first `size` rows of the table; the first row whose
`[low, high]` contains the address gives `destination_base + (addr - low)`; when no row
matches the caller proceeds with the untranslated address. -/
def set_img_va_to_pa (vaddr : Nat) : List vaddr_range_t → Nat → Nat
  | [], _ => vaddr
  | _ :: _, 0 => vaddr
  | r :: rest, size + 1 =>
    if r.contains vaddr then r.destination_base + (vaddr - r.low)
    else set_img_va_to_pa vaddr rest size

/-! ## Memory and ELF32 fields -/

/-- Byte-addressed memory. -/
abbrev Mem := Nat → Nat

def read8 (m : Mem) (a : Nat) : Nat := m a % 256

def read16 (m : Mem) (a : Nat) : Nat := read8 m a + 256 * read8 m (a + 1)

def read32 (m : Mem) (a : Nat) : Nat :=
  read8 m a + 256 * read8 m (a + 1) + 65536 * read8 m (a + 2) + 16777216 * read8 m (a + 3)

/-- `ehdr->e_entry` (offset 24 of `Elf32_Ehdr`). -/
def e_entry (m : Mem) (ehdr : Nat) : Nat := read32 m (ehdr + 24)

/-- `ehdr->e_phoff` (offset 28 of `Elf32_Ehdr`). -/
def e_phoff (m : Mem) (ehdr : Nat) : Nat := read32 m (ehdr + 28)

/-- `ehdr->e_phnum` (offset 44 of `Elf32_Ehdr`, 16 bits). -/
def e_phnum (m : Mem) (ehdr : Nat) : Nat := read16 m (ehdr + 44)

/-- `phdr->p_offset` (offset 4 of `Elf32_Phdr`). -/
def p_offset (m : Mem) (phdr : Nat) : Nat := read32 m (phdr + 4)

/-- `phdr->p_paddr` (offset 12 of `Elf32_Phdr`). -/
def p_paddr (m : Mem) (phdr : Nat) : Nat := read32 m (phdr + 12)

/-- `phdr->p_filesz` (offset 16 of `Elf32_Phdr`). -/
def p_filesz (m : Mem) (phdr : Nat) : Nat := read32 m (phdr + 16)

/-- `phdr->p_memsz` (offset 20 of `Elf32_Phdr`). -/
def p_memsz (m : Mem) (phdr : Nat) : Nat := read32 m (phdr + 20)

/-- `sizeof(Elf32_Phdr)`. -/
def sizeof_Elf32_Phdr : Nat := 32

/-! ## Machine state and primitive actions -/

/-- The device registers touched by the bring-up sequence. -/
inductive Reg where
  | RISCV_PUBSRAM_CFG_REG
  | RISCV_CFG_BGR_REG
  | RISCV_STA_ADD_REG
  | RISCV_CLK_REG
deriving DecidableEq, Repr

/-- Externally visible actions, recorded in program order. -/
inductive Event where
  | memcpy (dst src n : Nat)
  | memset (dst c n : Nat)
  | show_img_version (str id : Nat)
  | flush_cache (start size : Nat)
  | readl (r : Reg)
  | writel (val : Nat) (r : Reg)
deriving DecidableEq, Repr

structure State where
  mem : Mem
  regs : Reg → Nat
  trace : List Event

/-- `memcpy(dst, src, n)`. -/
def memcpy (dst src n : Nat) (s : State) : State :=
  { s with
    mem := fun a => if dst ≤ a ∧ a < dst + n then s.mem (src + (a - dst)) else s.mem a
    trace := s.trace ++ [Event.memcpy dst src n] }

/-- `memset(dst, c, n)`. -/
def memset (dst c n : Nat) (s : State) : State :=
  { s with
    mem := fun a => if dst ≤ a ∧ a < dst + n then c else s.mem a
    trace := s.trace ++ [Event.memset dst c n] }

/-- `show_img_version(str, id)`: diagnostic output only. -/
def show_img_version (str id : Nat) (s : State) : State :=
  { s with trace := s.trace ++ [Event.show_img_version str id] }

/-- `flush_cache(start, size)`: cache maintenance, memory contents are unchanged. -/
def flush_cache (start size : Nat) (s : State) : State :=
  { s with trace := s.trace ++ [Event.flush_cache start size] }

/-- `readl_riscv(addr)`. -/
def readl_riscv (r : Reg) (s : State) : Nat × State :=
  (s.regs r, { s with trace := s.trace ++ [Event.readl r] })

/-- `writel_riscv(val, addr)`. -/
def writel_riscv (val : Nat) (r : Reg) (s : State) : State :=
  { s with
    regs := fun x => if x = r then val else s.regs x
    trace := s.trace ++ [Event.writel val r] }

/-! ## `update_reset_vec` -/

/-- `update_reset_vec(img_addr, &run_addr)`: returns the status and the new `*run_addr`. -/
def update_reset_vec (img_addr run_addr : Nat) (s : State) : Int × Nat × State :=
  let ehdr := img_addr
  let run_addr := if run_addr = 0 then e_entry s.mem ehdr else run_addr
  (0, run_addr, s)

/-! ## `load_image` -/

/-- The translated destination of the segment described at `phdr` (lines 75-77). -/
def seg_dst (m : Mem) (phdr : Nat) : Nat :=
  set_img_va_to_pa (p_paddr m phdr) addr_mapping addr_mapping.length

/-- The source pointer of the segment described at `phdr` (line 79). -/
def seg_src (m : Mem) (img_addr phdr : Nat) : Nat := img_addr + p_offset m phdr

/-- Lines 83-84: the copy of one segment. -/
def seg_copy (img_addr phdr : Nat) (s : State) : State :=
  if p_filesz s.mem phdr ≠ 0 then
    memcpy (seg_dst s.mem phdr) (seg_src s.mem img_addr phdr) (p_filesz s.mem phdr) s
  else s

/-- Lines 85-87: the zero fill, `dst` being the pointer computed before the copy. -/
def seg_zero (dst phdr : Nat) (s : State) : State :=
  if p_filesz s.mem phdr ≠ p_memsz s.mem phdr then
    memset (dst + p_filesz s.mem phdr) 0
      ((p_memsz s.mem phdr + 2 ^ 32 - p_filesz s.mem phdr) % 2 ^ 32) s
  else s

/-- One iteration of the loop body of `load_image` (lines 74-92) for loop index `i`. -/
def load_segment (cfg : Platform) (img_addr riscv_id i phdr : Nat) (s : State) : State :=
  let dst := seg_dst s.mem phdr
  let s1 := seg_copy img_addr phdr s
  let s2 := seg_zero dst phdr s1
  let s3 := if i = 0 then show_img_version (dst + 896) riscv_id s2 else s2
  flush_cache (ROUND_DOWN_CACHE cfg dst) (ROUND_UP_CACHE cfg (p_filesz s3.mem phdr)) s3

/-- The `for` loop of `load_image`; `e_phnum` is re-read at every test. -/
def load_loop (cfg : Platform) (img_addr riscv_id : Nat) : Nat → Nat → Nat → State → State
  | 0, _, _, s => s
  | fuel + 1, i, phdr, s =>
    if i < e_phnum s.mem img_addr then
      load_loop cfg img_addr riscv_id fuel (i + 1) (phdr + sizeof_Elf32_Phdr)
        (load_segment cfg img_addr riscv_id i phdr s)
    else s

/-- `load_image(img_addr, riscv_id)`.  `e_phnum` is a 16-bit field, so the loop runs at most
65535 times and the fuel is never exhausted. -/
def load_image (cfg : Platform) (img_addr riscv_id : Nat) (s : State) : Int × State :=
  let ehdr := img_addr
  let phdr := (img_addr + e_phoff s.mem ehdr) % 2 ^ 32
  (0, load_loop cfg img_addr riscv_id 65536 0 phdr s)

/-! ## `sunxi_riscv_init` -/

/-- `sunxi_riscv_init(img_addr, run_ddr, riscv_id)`. -/
def sunxi_riscv_init (cfg : Platform) (img_addr run_ddr riscv_id : Nat) (s : State) :
    Int × State :=
  let image_len := 0
  if cfg.CONFIG_SUNXI_VERIFY_RISCV = true ∧
      cfg.sunxi_verify_riscv s.mem img_addr image_len riscv_id < 0 then (-1, s)
  else
    let run_ddr := (update_reset_vec img_addr run_ddr s).2.1
    let s := (update_reset_vec img_addr run_ddr s).2.2
    let reg_val := (readl_riscv Reg.RISCV_PUBSRAM_CFG_REG s).1
    let s := (readl_riscv Reg.RISCV_PUBSRAM_CFG_REG s).2
    let reg_val := reg_val ||| cfg.BIT_RISCV_PUBSRAM_RST
    let reg_val := reg_val ||| cfg.BIT_RISCV_PUBSRAM_GATING
    let s := writel_riscv reg_val Reg.RISCV_PUBSRAM_CFG_REG s
    let s := (load_image cfg img_addr riscv_id s).2
    let s := writel_riscv 0 Reg.RISCV_CFG_BGR_REG s
    let reg_val := cfg.BIT_RISCV_CFG_RST ||| cfg.BIT_RISCV_CFG_GATING
    let s := writel_riscv reg_val Reg.RISCV_CFG_BGR_REG s
    let reg_val := run_ddr
    let s := writel_riscv reg_val (Reg.RISCV_STA_ADD_REG) s
    let reg_val := (readl_riscv Reg.RISCV_CFG_BGR_REG s).1
    let s := (readl_riscv Reg.RISCV_CFG_BGR_REG s).2
    let reg_val := reg_val ||| (cfg.BIT_RISCV_CORE_RST ||| cfg.BIT_RISCV_APB_DB_RST)
    let s := writel_riscv reg_val Reg.RISCV_CFG_BGR_REG s
    let reg_val := (readl_riscv Reg.RISCV_CLK_REG s).1
    let s := (readl_riscv Reg.RISCV_CLK_REG s).2
    let reg_val := reg_val ||| cfg.BIT_RISCV_CLK_GATING
    let s := writel_riscv reg_val Reg.RISCV_CLK_REG s
    (0, s)

/-- Lines 114-117: the state in which `load_image` is called by `sunxi_riscv_init`. -/
def state_at_load (cfg : Platform) (s : State) : State :=
  writel_riscv
    ((s.regs Reg.RISCV_PUBSRAM_CFG_REG ||| cfg.BIT_RISCV_PUBSRAM_RST) |||
      cfg.BIT_RISCV_PUBSRAM_GATING)
    Reg.RISCV_PUBSRAM_CFG_REG (readl_riscv Reg.RISCV_PUBSRAM_CFG_REG s).2

/-! ## Trace predicates -/

/-- Actions performed by the segment loader. -/
def isLoadEvent : Event → Bool
  | Event.memcpy _ _ _ => true
  | Event.memset _ _ _ => true
  | Event.show_img_version _ _ => true
  | Event.flush_cache _ _ => true
  | _ => false

/-- Writes to the config-block, start-address or clock register. -/
def isCoreRegWrite : Event → Bool
  | Event.writel _ Reg.RISCV_CFG_BGR_REG => true
  | Event.writel _ Reg.RISCV_STA_ADD_REG => true
  | Event.writel _ Reg.RISCV_CLK_REG => true
  | _ => false

/-- Number of destination bytes a segment occupies from `dst`: the copied bytes followed by
the zero-filled tail.  It is `p_memsz` whenever `p_memsz ≥ p_filesz`. -/
def seg_extent (m : Mem) (phdr : Nat) : Nat :=
  p_filesz m phdr + (p_memsz m phdr + 2 ^ 32 - p_filesz m phdr) % 2 ^ 32

/-- Register writes of any kind. -/
def isRegWrite : Event → Bool
  | Event.writel _ _ => true
  | _ => false

/-- The spec's reading of the loader, "for each segment in image order": the state after the
first `n` entries of the program-header table at `phdr0` have been processed, entry `k` with
loop index `k` and header pointer `phdr0 + k * sizeof(Elf32_Phdr)`. -/
def process_segments (cfg : Platform) (img_addr riscv_id phdr0 : Nat) : Nat → State → State
  | 0, s => s
  | k + 1, s =>
    load_segment cfg img_addr riscv_id k (phdr0 + k * sizeof_Elf32_Phdr)
      (process_segments cfg img_addr riscv_id phdr0 k s)

/-! ## Sample platform and images -/

def le16 (v : Nat) : List Nat := [v % 256, v / 256 % 256]

def le32 (v : Nat) : List Nat :=
  [v % 256, v / 256 % 256, v / 65536 % 256, v / 16777216 % 256]

/-- An `Elf32_Ehdr` (52 bytes) with the given entry, program-header offset and count. -/
def ehdr_bytes (entry phoff phnum : Nat) : List Nat :=
  List.replicate 24 0 ++ le32 entry ++ le32 phoff ++ List.replicate 12 0 ++ le16 phnum ++
    List.replicate 6 0

/-- An `Elf32_Phdr` (32 bytes) of type `PT_LOAD`. -/
def phdr_bytes (offset paddr filesz memsz : Nat) : List Nat :=
  le32 1 ++ le32 offset ++ le32 0 ++ le32 paddr ++ le32 filesz ++ le32 memsz ++ le32 0 ++ le32 0

/-- Memory holding `bytes` from address `base` on and `fill` everywhere else. -/
def mem_of (base : Nat) (bytes : List Nat) (fill : Nat) : Mem :=
  fun a => if base ≤ a then bytes.getD (a - base) fill else fill

/-- A sample configuration: 64-byte cache lines, verifier not compiled in. -/
def sample_cfg : Platform :=
  { CONFIG_SYS_CACHELINE_SIZE := 64, BITS_PER_LONG := 64, CONFIG_SUNXI_VERIFY_RISCV := false,
    sunxi_verify_riscv := fun _ _ _ _ => 0,
    BIT_RISCV_PUBSRAM_RST := 0x10000, BIT_RISCV_PUBSRAM_GATING := 0x1,
    BIT_RISCV_CFG_RST := 0x10000, BIT_RISCV_CFG_GATING := 0x1,
    BIT_RISCV_CORE_RST := 0x40000, BIT_RISCV_APB_DB_RST := 0x20000,
    BIT_RISCV_CLK_GATING := 0x80000000 }

/-- The sample configuration with a verifier that rejects every image. -/
def reject_cfg : Platform :=
  { sample_cfg with CONFIG_SUNXI_VERIFY_RISCV := true, sunxi_verify_riscv := fun _ _ _ _ => -1 }

/-- Address at which the sample images are placed. -/
def sample_img_addr : Nat := 0x48000000

/-- Address of the first program header of the sample images. -/
def sample_phdr : Nat := 0x48000034

/-- A state whose memory holds `img` at `sample_img_addr` and `0xFF` elsewhere. -/
def sample_state (img : List Nat) : State :=
  { mem := mem_of sample_img_addr img 0xFF, regs := fun _ => 0, trace := [] }

/-- One segment, 64 bytes on disk and in memory, for the cache-line aligned target
`0x40400000`. -/
def img_aligned : List Nat :=
  ehdr_bytes 0x40400000 52 1 ++ phdr_bytes 84 0x40400000 64 64 ++ List.replicate 64 0xAB

/-- One segment, 64 bytes on disk and in memory, for the target `0x40400001`. -/
def img_unaligned : List Nat :=
  ehdr_bytes 0x40400000 52 1 ++ phdr_bytes 84 0x40400001 64 64 ++ List.replicate 64 0xAB

/-- One segment with `p_filesz = 10` and `p_memsz = 20`. -/
def img_bss : List Nat :=
  ehdr_bytes 0x40400000 52 1 ++ phdr_bytes 84 0x40400000 10 20 ++ List.replicate 10 0xAB

/-- One segment for the target `0x40000010`, which lies in the first row of `addr_mapping`. -/
def img_sram : List Nat :=
  ehdr_bytes 0x40000010 52 1 ++ phdr_bytes 84 0x40000010 64 64 ++ List.replicate 64 0xAB

/-- Two segments: 16 bytes for `0x40400000`, then 8 bytes on disk and 24 in memory for
`0x40400040`. -/
def img_two : List Nat :=
  ehdr_bytes 0x40400000 52 2 ++ phdr_bytes 116 0x40400000 16 16 ++
    phdr_bytes 132 0x40400040 8 24 ++ List.replicate 16 0xAB ++ List.replicate 8 0xCD

/-- One segment with `p_memsz = 8` smaller than `p_filesz = 16`. -/
def img_short : List Nat :=
  ehdr_bytes 0x40400000 52 1 ++ phdr_bytes 84 0x40400000 16 8 ++ List.replicate 16 0xAB

/-- One segment with `p_filesz = 8`, `p_memsz = 16`, `p_flags = p_align = 7`, whose target
`0x48000044` is the address of its own `p_filesz` field; the 8 source bytes are the two
words `8, 8`. -/
def img_self_bss : List Nat :=
  ehdr_bytes 0x40400000 52 1 ++
    (le32 1 ++ le32 84 ++ le32 0 ++ le32 0x48000044 ++ le32 8 ++ le32 16 ++ le32 7 ++ le32 7) ++
    (le32 8 ++ le32 8)

/-- One segment with `p_filesz = p_memsz = 8` whose target `0x48000044` is the address of its
own `p_filesz` field; the 8 source bytes are the two words `0, 8`. -/
def img_self_copy : List Nat :=
  ehdr_bytes 0x40400000 52 1 ++ phdr_bytes 84 0x48000044 8 8 ++ (le32 0 ++ le32 8)

/-- Three segments, the first of which copies the two bytes `1, 0` onto the `e_phnum` field of
the image header at `0x4800002C`. -/
def img_self_phnum : List Nat :=
  ehdr_bytes 0x40400000 52 3 ++ phdr_bytes 148 0x4800002C 2 2 ++
    phdr_bytes 150 0x40400000 4 4 ++ phdr_bytes 154 0x40400040 4 4 ++
    [1, 0] ++ List.replicate 4 0xAB ++ List.replicate 4 0xCD

/-- One segment whose target `0x1000` lies in no range of `addr_mapping`. -/
def img_unmapped : List Nat :=
  ehdr_bytes 0x1000 52 1 ++ phdr_bytes 84 0x1000 16 16 ++ List.replicate 16 0xAB

/-! ## Basic facts about reads -/

theorem read8_lt (m : Mem) (a : Nat) : read8 m a < 256 := by
  unfold read8; omega

theorem read16_lt (m : Mem) (a : Nat) : read16 m a < 65536 := by
  have h0 := read8_lt m a
  have h1 := read8_lt m (a + 1)
  unfold read16; omega

theorem read32_lt (m : Mem) (a : Nat) : read32 m a < 2 ^ 32 := by
  have h0 := read8_lt m a
  have h1 := read8_lt m (a + 1)
  have h2 := read8_lt m (a + 2)
  have h3 := read8_lt m (a + 3)
  unfold read32; omega

/-- A 32-bit read only depends on the four bytes it covers. -/
theorem read32_congr (m m2 : Mem) (a : Nat)
    (h : ∀ x, a ≤ x → x < a + 4 → m2 x = m x) : read32 m2 a = read32 m a := by
  unfold read32 read8
  rw [h a (by omega) (by omega), h (a + 1) (by omega) (by omega),
    h (a + 2) (by omega) (by omega), h (a + 3) (by omega) (by omega)]

/-! ## Address translation -/

/-- In any table, an address lying in exactly one row is translated by that row. -/
theorem set_img_va_to_pa_of_unique (A : Nat) (R : vaddr_range_t) :
    ∀ T : List vaddr_range_t, R ∈ T → R.contains A →
      (∀ R2 ∈ T, R2.contains A → R2 = R) →
      set_img_va_to_pa A T T.length = R.destination_base + (A - R.low) := by
  intro T
  induction T with
  | nil => intro hR; simp at hR
  | cons r rest ih =>
    intro hR hA huniq
    simp only [List.length_cons, set_img_va_to_pa]
    by_cases hr : r.contains A
    · have hrR : r = R := huniq r (List.mem_cons_self _ _) hr
      rw [if_pos hr, hrR]
    · rw [if_neg hr]
      have hR2 : R ∈ rest := by
        rcases List.mem_cons.mp hR with h | h
        · exact absurd (h ▸ hA) hr
        · exact h
      exact ih hR2 hA (fun R2 h2 hc => huniq R2 (List.mem_cons_of_mem _ h2) hc)

/-- In any table, an address lying in no row is returned untranslated. -/
theorem set_img_va_to_pa_of_unmapped (A : Nat) :
    ∀ (T : List vaddr_range_t) (size : Nat), (∀ R ∈ T, ¬ R.contains A) →
      set_img_va_to_pa A T size = A := by
  intro T
  induction T with
  | nil => intro size _; cases size <;> rfl
  | cons r rest ih =>
    intro size h
    cases size with
    | zero => rfl
    | succ n =>
      simp only [set_img_va_to_pa]
      rw [if_neg (h r (List.mem_cons_self _ _))]
      exact ih n (fun R hR => h R (List.mem_cons_of_mem _ hR))

/-! ## Effect of one loop iteration -/

theorem seg_copy_regs (img_addr phdr : Nat) (s : State) :
    (seg_copy img_addr phdr s).regs = s.regs := by
  unfold seg_copy; split <;> rfl

theorem seg_zero_regs (dst phdr : Nat) (s : State) : (seg_zero dst phdr s).regs = s.regs := by
  unfold seg_zero; split <;> rfl

theorem seg_copy_trace (img_addr phdr : Nat) (s : State) :
    (seg_copy img_addr phdr s).trace = s.trace ++
      (if p_filesz s.mem phdr ≠ 0 then
        [Event.memcpy (seg_dst s.mem phdr) (seg_src s.mem img_addr phdr) (p_filesz s.mem phdr)]
       else []) := by
  unfold seg_copy; split <;> simp [memcpy]

theorem seg_zero_trace (dst phdr : Nat) (s : State) :
    (seg_zero dst phdr s).trace = s.trace ++
      (if p_filesz s.mem phdr ≠ p_memsz s.mem phdr then
        [Event.memset (dst + p_filesz s.mem phdr) 0
          ((p_memsz s.mem phdr + 2 ^ 32 - p_filesz s.mem phdr) % 2 ^ 32)]
       else []) := by
  unfold seg_zero; split <;> simp [memset]

/-- Memory after an iteration is the memory after its copy and zero fill. -/
theorem load_segment_mem (cfg : Platform) (img_addr riscv_id i phdr : Nat) (s : State) :
    (load_segment cfg img_addr riscv_id i phdr s).mem =
      (seg_zero (seg_dst s.mem phdr) phdr (seg_copy img_addr phdr s)).mem := by
  unfold load_segment
  by_cases hi : i = 0 <;> simp [hi, flush_cache, show_img_version]

theorem load_segment_regs (cfg : Platform) (img_addr riscv_id i phdr : Nat) (s : State) :
    (load_segment cfg img_addr riscv_id i phdr s).regs = s.regs := by
  unfold load_segment
  by_cases hi : i = 0 <;>
    simp [hi, flush_cache, show_img_version, seg_zero_regs, seg_copy_regs]

/-- The events of one iteration, in program order. -/
theorem load_segment_trace (cfg : Platform) (img_addr riscv_id i phdr : Nat) (s : State) :
    (load_segment cfg img_addr riscv_id i phdr s).trace =
      s.trace ++
      (if p_filesz s.mem phdr ≠ 0 then
        [Event.memcpy (seg_dst s.mem phdr) (seg_src s.mem img_addr phdr) (p_filesz s.mem phdr)]
       else []) ++
      (if p_filesz (seg_copy img_addr phdr s).mem phdr ≠
          p_memsz (seg_copy img_addr phdr s).mem phdr then
        [Event.memset (seg_dst s.mem phdr + p_filesz (seg_copy img_addr phdr s).mem phdr) 0
          ((p_memsz (seg_copy img_addr phdr s).mem phdr + 2 ^ 32 -
            p_filesz (seg_copy img_addr phdr s).mem phdr) % 2 ^ 32)]
       else []) ++
      (if i = 0 then [Event.show_img_version (seg_dst s.mem phdr + 896) riscv_id] else []) ++
      [Event.flush_cache (ROUND_DOWN_CACHE cfg (seg_dst s.mem phdr))
        (ROUND_UP_CACHE cfg
          (p_filesz (load_segment cfg img_addr riscv_id i phdr s).mem phdr))] := by
  rw [load_segment_mem]
  unfold load_segment
  by_cases hi : i = 0 <;>
    simp [hi, flush_cache, show_img_version, seg_zero_trace, seg_copy_trace]

/-- Every event of one iteration is a loader action. -/
theorem load_segment_events (cfg : Platform) (img_addr riscv_id i phdr : Nat) (s : State) :
    ∃ evs, (load_segment cfg img_addr riscv_id i phdr s).trace = s.trace ++ evs ∧
      ∀ e ∈ evs, isLoadEvent e = true := by
  have h := load_segment_trace cfg img_addr riscv_id i phdr s
  simp only [List.append_assoc] at h
  refine ⟨_, h, ?_⟩
  intro e he
  simp only [List.mem_append] at he
  rcases he with he | he | he | he
  · split at he
    · rw [List.mem_singleton] at he; subst he; rfl
    · simp at he
  · split at he
    · rw [List.mem_singleton] at he; subst he; rfl
    · simp at he
  · split at he
    · rw [List.mem_singleton] at he; subst he; rfl
    · simp at he
  · rw [List.mem_singleton] at he; subst he; rfl

/-! ## Effect of the whole loop -/

theorem load_loop_regs (cfg : Platform) (img_addr riscv_id : Nat) :
    ∀ (fuel i phdr : Nat) (s : State),
      (load_loop cfg img_addr riscv_id fuel i phdr s).regs = s.regs := by
  intro fuel
  induction fuel with
  | zero => intro i phdr s; rfl
  | succ n ih =>
    intro i phdr s
    simp only [load_loop]
    split
    · rw [ih, load_segment_regs]
    · rfl

theorem load_loop_events (cfg : Platform) (img_addr riscv_id : Nat) :
    ∀ (fuel i phdr : Nat) (s : State),
      ∃ evs, (load_loop cfg img_addr riscv_id fuel i phdr s).trace = s.trace ++ evs ∧
        ∀ e ∈ evs, isLoadEvent e = true := by
  intro fuel
  induction fuel with
  | zero => intro i phdr s; exact ⟨[], by simp [load_loop], by simp⟩
  | succ n ih =>
    intro i phdr s
    simp only [load_loop]
    split
    · obtain ⟨e1, h1, hl1⟩ := load_segment_events cfg img_addr riscv_id i phdr s
      obtain ⟨e2, h2, hl2⟩ := ih (i + 1) (phdr + sizeof_Elf32_Phdr)
        (load_segment cfg img_addr riscv_id i phdr s)
      refine ⟨e1 ++ e2, ?_, ?_⟩
      · rw [h2, h1, List.append_assoc]
      · intro e he
        rcases List.mem_append.mp he with h | h
        · exact hl1 e h
        · exact hl2 e h
    · exact ⟨[], by simp, by simp⟩

/-- The loop never needs more fuel than `load_image` gives it: `e_phnum < 65536`. -/
theorem load_loop_fuel (cfg : Platform) (img_addr riscv_id : Nat) :
    ∀ (fuel i phdr : Nat) (s : State), 65535 ≤ i + fuel →
      load_loop cfg img_addr riscv_id (fuel + 1) i phdr s =
        load_loop cfg img_addr riscv_id fuel i phdr s := by
  intro fuel
  induction fuel with
  | zero =>
    intro i phdr s h
    have hp := read16_lt s.mem (img_addr + 44)
    have : ¬ i < e_phnum s.mem img_addr := by unfold e_phnum; omega
    simp [load_loop, this]
  | succ n ih =>
    intro i phdr s h
    rw [load_loop]
    conv => rhs; rw [load_loop]
    split
    · exact ih _ _ _ (by omega)
    · rfl

theorem load_image_events (cfg : Platform) (img_addr riscv_id : Nat) (s : State) :
    ∃ evs, (load_image cfg img_addr riscv_id s).2.trace = s.trace ++ evs ∧
      ∀ e ∈ evs, isLoadEvent e = true := by
  unfold load_image
  exact load_loop_events cfg img_addr riscv_id _ _ _ s

theorem load_image_regs (cfg : Platform) (img_addr riscv_id : Nat) (s : State) :
    (load_image cfg img_addr riscv_id s).2.regs = s.regs := by
  unfold load_image
  exact load_loop_regs cfg img_addr riscv_id _ _ _ s

/-! ## The bring-up sequence -/

/-- A run that is not rejected by the verifier returns 0, and its trace is the trace at the
return of `load_image` followed by the seven register accesses of lines 123-141. -/
theorem sunxi_riscv_init_pass (cfg : Platform) (img_addr run_ddr riscv_id : Nat) (s : State)
    (hv : ¬ (cfg.CONFIG_SUNXI_VERIFY_RISCV = true ∧
      cfg.sunxi_verify_riscv s.mem img_addr 0 riscv_id < 0)) :
    (sunxi_riscv_init cfg img_addr run_ddr riscv_id s).1 = 0 ∧
    (sunxi_riscv_init cfg img_addr run_ddr riscv_id s).2.trace =
      (load_image cfg img_addr riscv_id (state_at_load cfg s)).2.trace ++
        [Event.writel 0 Reg.RISCV_CFG_BGR_REG,
         Event.writel (cfg.BIT_RISCV_CFG_RST ||| cfg.BIT_RISCV_CFG_GATING) Reg.RISCV_CFG_BGR_REG,
         Event.writel (if run_ddr = 0 then e_entry s.mem img_addr else run_ddr)
           Reg.RISCV_STA_ADD_REG,
         Event.readl Reg.RISCV_CFG_BGR_REG,
         Event.writel ((cfg.BIT_RISCV_CFG_RST ||| cfg.BIT_RISCV_CFG_GATING) |||
           (cfg.BIT_RISCV_CORE_RST ||| cfg.BIT_RISCV_APB_DB_RST)) Reg.RISCV_CFG_BGR_REG,
         Event.readl Reg.RISCV_CLK_REG,
         Event.writel (s.regs Reg.RISCV_CLK_REG ||| cfg.BIT_RISCV_CLK_GATING)
           Reg.RISCV_CLK_REG] := by
  unfold sunxi_riscv_init
  rw [if_neg hv]
  simp [writel_riscv, readl_riscv, state_at_load, update_reset_vec, load_image_regs]

/-- The events up to the return of `load_image`: the PUBSRAM read-modify-write followed by
loader actions only. -/
theorem trace_at_load_return (cfg : Platform) (img_addr riscv_id : Nat) (s : State) :
    ∃ before, (load_image cfg img_addr riscv_id (state_at_load cfg s)).2.trace =
        s.trace ++ before ∧
      (∀ e ∈ before, isCoreRegWrite e = false) ∧
      ∃ evs, before = Event.readl Reg.RISCV_PUBSRAM_CFG_REG ::
          Event.writel ((s.regs Reg.RISCV_PUBSRAM_CFG_REG ||| cfg.BIT_RISCV_PUBSRAM_RST) |||
            cfg.BIT_RISCV_PUBSRAM_GATING) Reg.RISCV_PUBSRAM_CFG_REG :: evs ∧
        ∀ e ∈ evs, isLoadEvent e = true := by
  obtain ⟨evs, h, hl⟩ := load_image_events cfg img_addr riscv_id (state_at_load cfg s)
  refine ⟨_ :: _ :: evs, ?_, ?_, evs, rfl, hl⟩
  · rw [h]; simp [state_at_load, writel_riscv, readl_riscv]
  · intro e he
    rcases List.mem_cons.mp he with h1 | he
    · subst h1; rfl
    rcases List.mem_cons.mp he with h1 | he
    · subst h1; rfl
    · have := hl e he
      cases e <;> simp_all [isLoadEvent, isCoreRegWrite]

/-! ## Rounding -/

/-- For a power of two `2 ^ k`, the mask-based `ROUND_DOWN` clears the low `k` bits of the
`w`-bit value. -/
theorem ROUND_DOWN_pow_two (w a k : Nat) :
    ROUND_DOWN w a (2 ^ k) = a % 2 ^ w - a % 2 ^ w % 2 ^ k := by
  have hlt : (2 ^ k - 1) % 2 ^ w < 2 ^ w := Nat.mod_lt _ (Nat.two_pow_pos w)
  have hmask : bitNot w (2 ^ k - 1) = 2 ^ w - ((2 ^ k - 1) % 2 ^ w + 1) := by
    unfold bitNot; omega
  have hrhs : a % 2 ^ w - a % 2 ^ w % 2 ^ k = 2 ^ k * (a % 2 ^ w / 2 ^ k) := by
    have := Nat.div_add_mod (a % 2 ^ w) (2 ^ k)
    omega
  unfold ROUND_DOWN
  rw [hmask, hrhs]
  apply Nat.eq_of_testBit_eq
  intro i
  rw [Nat.testBit_and, Nat.testBit_two_pow_sub_succ hlt, Nat.testBit_mod_two_pow,
    Nat.testBit_mod_two_pow, Nat.testBit_two_pow_sub_one, Nat.testBit_mul_pow_two,
    ← Nat.shiftRight_eq_div_pow, Nat.testBit_shiftRight, Nat.testBit_mod_two_pow]
  by_cases h1 : i < w <;> by_cases h2 : i < k
  · simp [h1, h2]
  · have h3 : k + (i - k) = i := by omega
    simp [h1, h2, h3]
    omega
  · simp [h1, h2]
  · simp [h1, h2]
    omega

/-! ## Range of the translated destination -/

/-- Over `addr_mapping` the destination of a segment is below `2 ^ 32`. -/
theorem seg_dst_lt (m : Mem) (phdr : Nat) : seg_dst m phdr < 2 ^ 32 := by
  have hp : p_paddr m phdr < 2 ^ 32 := read32_lt _ _
  unfold seg_dst
  simp only [addr_mapping, List.length_cons, List.length_nil, set_img_va_to_pa,
    vaddr_range_t.contains]
  split
  · omega
  · split
    · omega
    · exact hp

/-! ## Registers after the bring-up sequence -/

/-- The register file after a run that is not rejected by the verifier. -/
theorem sunxi_riscv_init_regs (cfg : Platform) (img_addr run_ddr riscv_id : Nat) (s : State)
    (hv : ¬ (cfg.CONFIG_SUNXI_VERIFY_RISCV = true ∧
      cfg.sunxi_verify_riscv s.mem img_addr 0 riscv_id < 0)) :
    (sunxi_riscv_init cfg img_addr run_ddr riscv_id s).2.regs Reg.RISCV_PUBSRAM_CFG_REG =
      (s.regs Reg.RISCV_PUBSRAM_CFG_REG ||| cfg.BIT_RISCV_PUBSRAM_RST) |||
        cfg.BIT_RISCV_PUBSRAM_GATING ∧
    (sunxi_riscv_init cfg img_addr run_ddr riscv_id s).2.regs Reg.RISCV_CFG_BGR_REG =
      (cfg.BIT_RISCV_CFG_RST ||| cfg.BIT_RISCV_CFG_GATING) |||
        (cfg.BIT_RISCV_CORE_RST ||| cfg.BIT_RISCV_APB_DB_RST) ∧
    (sunxi_riscv_init cfg img_addr run_ddr riscv_id s).2.regs Reg.RISCV_STA_ADD_REG =
      (if run_ddr = 0 then e_entry s.mem img_addr else run_ddr) ∧
    (sunxi_riscv_init cfg img_addr run_ddr riscv_id s).2.regs Reg.RISCV_CLK_REG =
      s.regs Reg.RISCV_CLK_REG ||| cfg.BIT_RISCV_CLK_GATING := by
  unfold sunxi_riscv_init
  rw [if_neg hv]
  simp [writel_riscv, readl_riscv, update_reset_vec, load_image_regs]

/-! ## The loop as a walk over the program-header table -/

/-- While the loop test keeps succeeding, `m` iterations of the loop are the processing of
the first `m` table entries. -/
theorem load_loop_process (cfg : Platform) (img_addr riscv_id phdr0 : Nat) (s : State) :
    ∀ (m fuel : Nat),
      (∀ k, k < m →
        k < e_phnum (process_segments cfg img_addr riscv_id phdr0 k s).mem img_addr) →
      load_loop cfg img_addr riscv_id (fuel + m) 0 phdr0 s =
        load_loop cfg img_addr riscv_id fuel m (phdr0 + m * sizeof_Elf32_Phdr)
          (process_segments cfg img_addr riscv_id phdr0 m s) := by
  intro m
  induction m with
  | zero => intro fuel _; simp [process_segments]
  | succ n ih =>
    intro fuel h
    have h1 := ih (fuel + 1) (fun k hk => h k (Nat.lt_succ_of_lt hk))
    have h2 : fuel + (n + 1) = fuel + 1 + n := by omega
    rw [h2, h1, load_loop, if_pos (h n (Nat.lt_succ_self n))]
    have h3 : phdr0 + n * sizeof_Elf32_Phdr + sizeof_Elf32_Phdr =
        phdr0 + (n + 1) * sizeof_Elf32_Phdr := by
      rw [Nat.add_mul]; omega
    rw [h3]
    rfl

/-- Fuel beyond what `load_image` supplies does not change the result of the loop. -/
theorem load_loop_extra_fuel (cfg : Platform) (img_addr riscv_id phdr : Nat) (s : State) :
    ∀ extra : Nat,
      load_loop cfg img_addr riscv_id (65536 + extra) 0 phdr s =
        load_loop cfg img_addr riscv_id 65536 0 phdr s := by
  intro extra
  induction extra with
  | zero => rfl
  | succ n ih =>
    rw [← ih]
    exact load_loop_fuel cfg img_addr riscv_id (65536 + n) 0 phdr s (by omega)

/-! ## The size fields across the copy -/

/-- A copy that does not reach the `p_filesz` and `p_memsz` fields of the program header being
processed leaves both as they were. -/
theorem seg_copy_keeps_sizes (img_addr phdr : Nat) (s : State)
    (hhdr : p_filesz s.mem phdr = 0 ∨ phdr + 24 ≤ seg_dst s.mem phdr ∨
      seg_dst s.mem phdr + p_filesz s.mem phdr ≤ phdr + 16) :
    p_filesz (seg_copy img_addr phdr s).mem phdr = p_filesz s.mem phdr ∧
    p_memsz (seg_copy img_addr phdr s).mem phdr = p_memsz s.mem phdr := by
  by_cases hfs0 : p_filesz s.mem phdr = 0
  · have : seg_copy img_addr phdr s = s := by
      unfold seg_copy; rw [if_neg (by simp [hfs0])]
    rw [this]; exact ⟨rfl, rfl⟩
  · have hcopy : (seg_copy img_addr phdr s).mem = fun a =>
        if seg_dst s.mem phdr ≤ a ∧ a < seg_dst s.mem phdr + p_filesz s.mem phdr then
          s.mem (seg_src s.mem img_addr phdr + (a - seg_dst s.mem phdr))
        else s.mem a := by
      unfold seg_copy; rw [if_pos hfs0]; rfl
    constructor
    · refine read32_congr s.mem _ (phdr + 16) ?_
      intro x h1 h2
      rw [hcopy]
      have : ¬ (seg_dst s.mem phdr ≤ x ∧ x < seg_dst s.mem phdr + p_filesz s.mem phdr) := by
        omega
      simp only [this, if_false]
    · refine read32_congr s.mem _ (phdr + 20) ?_
      intro x h1 h2
      rw [hcopy]
      have : ¬ (seg_dst s.mem phdr ≤ x ∧ x < seg_dst s.mem phdr + p_filesz s.mem phdr) := by
        omega
      simp only [this, if_false]

/-- The zero fill in terms of the size fields as the code reads them at the test of line 85,
that is, after the copy: every byte at an offset between the two from `dst` is zero after
the iteration. -/
theorem zero_fill_as_read (cfg : Platform) (img_addr riscv_id i phdr : Nat) (s : State)
    (k : Nat) (hlo : p_filesz (seg_copy img_addr phdr s).mem phdr ≤ k)
    (hhi : k < p_memsz (seg_copy img_addr phdr s).mem phdr) :
    (load_segment cfg img_addr riscv_id i phdr s).mem (seg_dst s.mem phdr + k) = 0 := by
  rw [load_segment_mem]
  have hms : p_memsz (seg_copy img_addr phdr s).mem phdr < 2 ^ 32 := read32_lt _ _
  have hne : p_filesz (seg_copy img_addr phdr s).mem phdr ≠
      p_memsz (seg_copy img_addr phdr s).mem phdr := by omega
  unfold seg_zero
  rw [if_pos hne]
  simp only [memset]
  rw [if_pos]
  constructor
  · omega
  · have : (p_memsz (seg_copy img_addr phdr s).mem phdr + 2 ^ 32 -
        p_filesz (seg_copy img_addr phdr s).mem phdr) % 2 ^ 32 =
        p_memsz (seg_copy img_addr phdr s).mem phdr -
          p_filesz (seg_copy img_addr phdr s).mem phdr := by omega
    omega

/-! ## Claims -/

/-- C1: at the segment of `img_unaligned` (destination `0x40400001`, `p_filesz = 64`, 64-byte
cache lines) the range handed to `flush_cache` is `[0x40400000, 0x40400040)`; it ends below
`dst + p_filesz = 0x40400041`, so the last copied byte lies outside the flushed range. -/
theorem flush_range_misses_copied_tail :
    seg_dst (sample_state img_unaligned).mem sample_phdr = 0x40400001 ∧
    p_filesz (sample_state img_unaligned).mem sample_phdr = 64 ∧
    (load_segment sample_cfg sample_img_addr 0 0 sample_phdr
        (sample_state img_unaligned)).trace =
      [Event.memcpy 0x40400001 0x48000054 64,
       Event.show_img_version (0x40400001 + 896) 0,
       Event.flush_cache 0x40400000 64] ∧
    0x40400000 + 64 < 0x40400001 + 64 := by
  refine ⟨by decide, by decide, by decide, by decide⟩

/-- C2, as stated, fails: the segment of `img_self_bss` has `p_filesz = 8 < p_memsz = 16`, but
its copy lands on its own size fields and rewrites them to `8, 8`; the test of line 85, which
reads them again, then skips the zero fill, and the byte at offset 8 from the destination
still holds 7 after the iteration. -/
theorem zero_fill_skipped_by_own_header :
    p_filesz (sample_state img_self_bss).mem sample_phdr = 8 ∧
    p_memsz (sample_state img_self_bss).mem sample_phdr = 16 ∧
    seg_dst (sample_state img_self_bss).mem sample_phdr = 0x48000044 ∧
    (load_segment sample_cfg sample_img_addr 0 0 sample_phdr
        (sample_state img_self_bss)).trace =
      [Event.memcpy 0x48000044 0x48000054 8,
       Event.show_img_version (0x48000044 + 896) 0,
       Event.flush_cache 0x48000040 64] ∧
    (load_segment sample_cfg sample_img_addr 0 0 sample_phdr (sample_state img_self_bss)).mem
      (seg_dst (sample_state img_self_bss).mem sample_phdr + 8) = 7 := by
  refine ⟨by decide, by decide, by decide, by decide, by decide⟩

/-- C2, amended: for a segment whose copy `[dst, dst + p_filesz)` does not overwrite the
`p_filesz` and `p_memsz` fields of its own program header, after the iteration every
destination byte at an offset `k` with `p_filesz ≤ k < p_memsz` from the translated
destination is zero. -/
theorem load_segment_zero_fill (cfg : Platform) (img_addr riscv_id i phdr : Nat) (s : State)
    (k : Nat)
    (hhdr : p_filesz s.mem phdr = 0 ∨ phdr + 24 ≤ seg_dst s.mem phdr ∨
      seg_dst s.mem phdr + p_filesz s.mem phdr ≤ phdr + 16)
    (hlo : p_filesz s.mem phdr ≤ k) (hhi : k < p_memsz s.mem phdr) :
    (load_segment cfg img_addr riscv_id i phdr s).mem (seg_dst s.mem phdr + k) = 0 := by
  obtain ⟨hfs, hms⟩ := seg_copy_keeps_sizes img_addr phdr s hhdr
  apply zero_fill_as_read
  · rw [hfs]; exact hlo
  · rw [hms]; exact hhi

/-- Witness for the amended C2: `p_filesz = 10`, `p_memsz = 20`, destination `0x40400000` far
from the header; the byte at offset 15 is zero after the iteration (memory outside the image
was `0xFF` before). -/
theorem load_segment_zero_fill_witness :
    (p_filesz (sample_state img_bss).mem sample_phdr = 0 ∨
      sample_phdr + 24 ≤ seg_dst (sample_state img_bss).mem sample_phdr ∨
      seg_dst (sample_state img_bss).mem sample_phdr +
        p_filesz (sample_state img_bss).mem sample_phdr ≤ sample_phdr + 16) ∧
    p_filesz (sample_state img_bss).mem sample_phdr = 10 ∧
    p_memsz (sample_state img_bss).mem sample_phdr = 20 ∧
    (sample_state img_bss).mem (0x40400000 + 15) = 0xFF ∧
    (load_segment sample_cfg sample_img_addr 0 0 sample_phdr (sample_state img_bss)).mem
        (seg_dst (sample_state img_bss).mem sample_phdr + 15) = 0 :=
  ⟨by decide, by decide, by decide, by decide,
    load_segment_zero_fill sample_cfg sample_img_addr 0 0 sample_phdr (sample_state img_bss) 15
      (by decide) (by decide) (by decide)⟩

/-- C3, as stated, fails: the only segment of `img_unmapped` targets `0x1000`, which lies in
no range of `addr_mapping`, yet `load_image` returns 0 and copies and flushes the segment at
the untranslated address. -/
theorem unmapped_segment_is_loaded :
    (∀ R ∈ addr_mapping, ¬ R.contains (p_paddr (sample_state img_unmapped).mem sample_phdr)) ∧
    (load_image sample_cfg sample_img_addr 0 (sample_state img_unmapped)).1 = 0 ∧
    (load_image sample_cfg sample_img_addr 0 (sample_state img_unmapped)).2.trace =
      [Event.memcpy 0x1000 0x48000054 16,
       Event.show_img_version (0x1000 + 896) 0,
       Event.flush_cache 0x1000 64] := by
  refine ⟨by decide, by decide, by decide⟩

/-- C3, amended: `load_image` has no failure path.  It returns 0 for every image, and a
segment whose `p_paddr` lies in no range of `addr_mapping` is processed like any other one,
with the untranslated `p_paddr` as destination: the copy of lines 83-84 goes there, the
iteration ends with the flush at that address, and the loop goes on to the next header. -/
theorem load_image_no_failure_path (cfg : Platform) (img_addr riscv_id i phdr fuel : Nat)
    (s : State) (hun : ∀ R ∈ addr_mapping, ¬ R.contains (p_paddr s.mem phdr))
    (hi : i < e_phnum s.mem img_addr) :
    (load_image cfg img_addr riscv_id s).1 = 0 ∧
    seg_dst s.mem phdr = p_paddr s.mem phdr ∧
    seg_copy img_addr phdr s =
      (if p_filesz s.mem phdr ≠ 0 then
        memcpy (p_paddr s.mem phdr) (seg_src s.mem img_addr phdr) (p_filesz s.mem phdr) s
       else s) ∧
    (load_segment cfg img_addr riscv_id i phdr s).trace.getLast? =
      some (Event.flush_cache (ROUND_DOWN_CACHE cfg (p_paddr s.mem phdr))
        (ROUND_UP_CACHE cfg
          (p_filesz (load_segment cfg img_addr riscv_id i phdr s).mem phdr))) ∧
    load_loop cfg img_addr riscv_id (fuel + 1) i phdr s =
      load_loop cfg img_addr riscv_id fuel (i + 1) (phdr + sizeof_Elf32_Phdr)
        (load_segment cfg img_addr riscv_id i phdr s) := by
  have hd : seg_dst s.mem phdr = p_paddr s.mem phdr :=
    set_img_va_to_pa_of_unmapped _ _ _ hun
  refine ⟨rfl, hd, ?_, ?_, ?_⟩
  · unfold seg_copy; rw [hd]
  · rw [load_segment_trace, hd]; simp
  · simp [load_loop, hi]

/-- Witness for the amended C3 at the unmapped segment of `img_unmapped`. -/
theorem load_image_no_failure_path_witness :
    (∀ R ∈ addr_mapping, ¬ R.contains (p_paddr (sample_state img_unmapped).mem sample_phdr)) ∧
    0 < e_phnum (sample_state img_unmapped).mem sample_img_addr ∧
    (load_image sample_cfg sample_img_addr 0 (sample_state img_unmapped)).1 = 0 ∧
    seg_dst (sample_state img_unmapped).mem sample_phdr =
      p_paddr (sample_state img_unmapped).mem sample_phdr :=
  have h := load_image_no_failure_path sample_cfg sample_img_addr 0 0 sample_phdr 0
    (sample_state img_unmapped) (by decide) (by decide)
  ⟨by decide, by decide, h.1, h.2.1⟩

/-- C4, as stated, fails: in the run on `img_aligned` the copy of the segment is performed
when no write to `RISCV_CFG_BGR_REG` has happened yet. -/
theorem copy_precedes_hold_write :
    ∃ pre post,
      (sunxi_riscv_init sample_cfg sample_img_addr 0 0 (sample_state img_aligned)).2.trace =
        pre ++ Event.memcpy 0x40400000 0x48000054 64 :: post ∧
      (∀ v, Event.writel v Reg.RISCV_CFG_BGR_REG ∉ pre) ∧
      Event.writel 0 Reg.RISCV_CFG_BGR_REG ∈ post := by
  refine ⟨[Event.readl Reg.RISCV_PUBSRAM_CFG_REG,
      Event.writel 0x10001 Reg.RISCV_PUBSRAM_CFG_REG],
    [Event.show_img_version (0x40400000 + 896) 0,
      Event.flush_cache 0x40400000 64,
      Event.writel 0 Reg.RISCV_CFG_BGR_REG,
      Event.writel 0x10001 Reg.RISCV_CFG_BGR_REG,
      Event.writel 0x40400000 Reg.RISCV_STA_ADD_REG,
      Event.readl Reg.RISCV_CFG_BGR_REG,
      Event.writel 0x70001 Reg.RISCV_CFG_BGR_REG,
      Event.readl Reg.RISCV_CLK_REG,
      Event.writel 0x80000000 Reg.RISCV_CLK_REG], by decide, ?_, by decide⟩
  intro v; simp

/-- C4, amended: in every run that reaches the loader, the write of zero to
`RISCV_CFG_BGR_REG` is the first action after `load_image` has returned.  Up to that return
no write to the config-block, start-address or clock register has happened, and the zero
write is followed at once by the literal config-block reset/gating write. -/
theorem hold_write_follows_load (cfg : Platform) (img_addr run_ddr riscv_id : Nat) (s : State)
    (hv : ¬ (cfg.CONFIG_SUNXI_VERIFY_RISCV = true ∧
      cfg.sunxi_verify_riscv s.mem img_addr 0 riscv_id < 0)) :
    ∃ before rest,
      (load_image cfg img_addr riscv_id (state_at_load cfg s)).2.trace = s.trace ++ before ∧
      (∀ e ∈ before, isCoreRegWrite e = false) ∧
      (sunxi_riscv_init cfg img_addr run_ddr riscv_id s).2.trace =
        s.trace ++ before ++
          Event.writel 0 Reg.RISCV_CFG_BGR_REG ::
          Event.writel (cfg.BIT_RISCV_CFG_RST ||| cfg.BIT_RISCV_CFG_GATING)
            Reg.RISCV_CFG_BGR_REG :: rest := by
  obtain ⟨before, hb, hnw, _⟩ := trace_at_load_return cfg img_addr riscv_id s
  have hp := (sunxi_riscv_init_pass cfg img_addr run_ddr riscv_id s hv).2
  rw [hb] at hp
  exact ⟨before, _, hb, hnw, hp⟩

/-- Witness for the amended C4: the run on `img_aligned` with the verifier not compiled in. -/
theorem hold_write_follows_load_witness :
    ¬ (sample_cfg.CONFIG_SUNXI_VERIFY_RISCV = true ∧
      sample_cfg.sunxi_verify_riscv (sample_state img_aligned).mem sample_img_addr 0 0 < 0) ∧
    ∃ before rest,
      (load_image sample_cfg sample_img_addr 0
        (state_at_load sample_cfg (sample_state img_aligned))).2.trace =
        (sample_state img_aligned).trace ++ before ∧
      (∀ e ∈ before, isCoreRegWrite e = false) ∧
      (sunxi_riscv_init sample_cfg sample_img_addr 0 0 (sample_state img_aligned)).2.trace =
        (sample_state img_aligned).trace ++ before ++
          Event.writel 0 Reg.RISCV_CFG_BGR_REG ::
          Event.writel (sample_cfg.BIT_RISCV_CFG_RST ||| sample_cfg.BIT_RISCV_CFG_GATING)
            Reg.RISCV_CFG_BGR_REG :: rest :=
  ⟨by decide,
    hold_write_follows_load sample_cfg sample_img_addr 0 0 (sample_state img_aligned)
      (by decide)⟩

/-- C5: in every run, either the verifier rejects the image and nothing happens, or the
events split at the return of `load_image`: up to that return there is no write to the
config-block, start-address or clock register, and after it there is no loader action. -/
theorem load_completes_before_release (cfg : Platform) (img_addr run_ddr riscv_id : Nat)
    (s : State) :
    sunxi_riscv_init cfg img_addr run_ddr riscv_id s = (-1, s) ∨
    ∃ before after,
      (load_image cfg img_addr riscv_id (state_at_load cfg s)).2.trace = s.trace ++ before ∧
      (sunxi_riscv_init cfg img_addr run_ddr riscv_id s).2.trace =
        s.trace ++ before ++ after ∧
      (∀ e ∈ before, isCoreRegWrite e = false) ∧
      (∀ e ∈ after, isLoadEvent e = false) ∧
      (∃ e ∈ after, isCoreRegWrite e = true) := by
  by_cases hv : cfg.CONFIG_SUNXI_VERIFY_RISCV = true ∧
      cfg.sunxi_verify_riscv s.mem img_addr 0 riscv_id < 0
  · left
    unfold sunxi_riscv_init
    rw [if_pos hv]
  · right
    obtain ⟨before, hb, hnw, _⟩ := trace_at_load_return cfg img_addr riscv_id s
    have hp := (sunxi_riscv_init_pass cfg img_addr run_ddr riscv_id s hv).2
    rw [hb] at hp
    refine ⟨before, _, hb, hp, hnw, ?_, ?_⟩
    · intro e he
      simp only [List.mem_cons, List.mem_singleton, List.not_mem_nil, or_false] at he
      rcases he with h | h | h | h | h | h | h <;> subst h <;> rfl
    · exact ⟨Event.writel 0 Reg.RISCV_CFG_BGR_REG, List.mem_cons_self _ _, rfl⟩

/-- C6: with the verifier compiled in and reporting failure, `sunxi_riscv_init` returns `-1`
and leaves memory, registers and trace exactly as they were. -/
theorem verify_failure_no_effects (cfg : Platform) (img_addr run_ddr riscv_id : Nat)
    (s : State) (hc : cfg.CONFIG_SUNXI_VERIFY_RISCV = true)
    (hf : cfg.sunxi_verify_riscv s.mem img_addr 0 riscv_id < 0) :
    sunxi_riscv_init cfg img_addr run_ddr riscv_id s = (-1, s) := by
  unfold sunxi_riscv_init
  rw [if_pos ⟨hc, hf⟩]

/-- Witness for C6: a verifier that rejects the image. -/
theorem verify_failure_no_effects_witness :
    reject_cfg.CONFIG_SUNXI_VERIFY_RISCV = true ∧
    reject_cfg.sunxi_verify_riscv (sample_state img_aligned).mem sample_img_addr 0 0 < 0 ∧
    sunxi_riscv_init reject_cfg sample_img_addr 0 0 (sample_state img_aligned) =
      (-1, sample_state img_aligned) :=
  ⟨rfl, by decide,
    verify_failure_no_effects reject_cfg sample_img_addr 0 0 (sample_state img_aligned) rfl
      (by decide)⟩

/-- C7: `update_reset_vec` returns status 0, resolves the entry to the header's `e_entry`
when the requested run address is zero and to the requested address otherwise, and leaves
the state (hence the image) untouched. -/
theorem update_reset_vec_resolves (img_addr run_addr : Nat) (s : State) :
    update_reset_vec img_addr run_addr s =
      (0, if run_addr = 0 then e_entry s.mem img_addr else run_addr, s) := by
  rfl

/-- C8, as stated, fails: the source bytes `[0x48000054, 0x4800005C)` of the segment of
`img_self_copy` do not overlap its destination `[0x48000044, 0x4800004C)`, but the copy lands
on the segment's own size fields and rewrites them to `0, 8`; the zero fill of lines 85-87,
which reads them again, then clears the copied bytes, and the byte at `dst + 4` is 0 where
the image byte at `src + 4` is 8. -/
theorem copy_cleared_by_own_header :
    (seg_src (sample_state img_self_copy).mem sample_img_addr sample_phdr +
        p_filesz (sample_state img_self_copy).mem sample_phdr ≤
        seg_dst (sample_state img_self_copy).mem sample_phdr ∨
      seg_dst (sample_state img_self_copy).mem sample_phdr +
        seg_extent (sample_state img_self_copy).mem sample_phdr ≤
        seg_src (sample_state img_self_copy).mem sample_img_addr sample_phdr) ∧
    4 < p_filesz (sample_state img_self_copy).mem sample_phdr ∧
    (sample_state img_self_copy).mem
      (seg_src (sample_state img_self_copy).mem sample_img_addr sample_phdr + 4) = 8 ∧
    (load_segment sample_cfg sample_img_addr 0 0 sample_phdr
        (sample_state img_self_copy)).trace =
      [Event.memcpy 0x48000044 0x48000054 8,
       Event.memset 0x48000044 0 8,
       Event.show_img_version (0x48000044 + 896) 0,
       Event.flush_cache 0x48000040 0] ∧
    (load_segment sample_cfg sample_img_addr 0 0 sample_phdr (sample_state img_self_copy)).mem
      (seg_dst (sample_state img_self_copy).mem sample_phdr + 4) = 0 := by
  refine ⟨by decide, by decide, by decide, by decide, by decide⟩

/-- C8, amended: for a segment whose source bytes `[src, src + p_filesz)` do not overlap its
destination `[dst, dst + seg_extent)`, whose copy does not overwrite the two size fields of
its own program header (the code reads them again after the copy), and whose source range and
destination lie within the address space of the build (so that the pointer sums of lines 79
and 84-87 do not wrap), after the iteration the byte at `dst + k` equals the image byte at
`src + k` for every `k < p_filesz`, and that image byte is unchanged. -/
theorem load_segment_copies_source (cfg : Platform) (img_addr riscv_id i phdr : Nat)
    (s : State) (k : Nat)
    (hsrc : seg_src s.mem img_addr phdr + p_filesz s.mem phdr ≤ seg_dst s.mem phdr ∨
      seg_dst s.mem phdr + seg_extent s.mem phdr ≤ seg_src s.mem img_addr phdr)
    (hhdr : phdr + 24 ≤ seg_dst s.mem phdr ∨
      seg_dst s.mem phdr + p_filesz s.mem phdr ≤ phdr + 16)
    (hsfit : seg_src s.mem img_addr phdr + p_filesz s.mem phdr ≤ 2 ^ cfg.BITS_PER_LONG)
    (hdfit : seg_dst s.mem phdr + seg_extent s.mem phdr ≤ 2 ^ cfg.BITS_PER_LONG)
    (hk : k < p_filesz s.mem phdr) :
    seg_src s.mem img_addr phdr + k < 2 ^ cfg.BITS_PER_LONG ∧
    seg_dst s.mem phdr + k < 2 ^ cfg.BITS_PER_LONG ∧
    (load_segment cfg img_addr riscv_id i phdr s).mem (seg_dst s.mem phdr + k) =
        s.mem (seg_src s.mem img_addr phdr + k) ∧
    (load_segment cfg img_addr riscv_id i phdr s).mem (seg_src s.mem img_addr phdr + k) =
        s.mem (seg_src s.mem img_addr phdr + k) := by
  have hb1 : seg_src s.mem img_addr phdr + k < 2 ^ cfg.BITS_PER_LONG := by omega
  have hb2 : seg_dst s.mem phdr + k < 2 ^ cfg.BITS_PER_LONG := by
    unfold seg_extent at hdfit
    omega
  have hmain : (load_segment cfg img_addr riscv_id i phdr s).mem (seg_dst s.mem phdr + k) =
        s.mem (seg_src s.mem img_addr phdr + k) ∧
      (load_segment cfg img_addr riscv_id i phdr s).mem (seg_src s.mem img_addr phdr + k) =
        s.mem (seg_src s.mem img_addr phdr + k) := by
    have hfs0 : p_filesz s.mem phdr ≠ 0 := by omega
    have hcopy : (seg_copy img_addr phdr s).mem = fun a =>
        if seg_dst s.mem phdr ≤ a ∧ a < seg_dst s.mem phdr + p_filesz s.mem phdr then
          s.mem (seg_src s.mem img_addr phdr + (a - seg_dst s.mem phdr))
        else s.mem a := by
      unfold seg_copy; rw [if_pos hfs0]; rfl
    have hfs1 : p_filesz (seg_copy img_addr phdr s).mem phdr = p_filesz s.mem phdr := by
      refine read32_congr s.mem _ (phdr + 16) ?_
      intro x h1 h2
      rw [hcopy]
      have : ¬ (seg_dst s.mem phdr ≤ x ∧ x < seg_dst s.mem phdr + p_filesz s.mem phdr) := by
        omega
      simp only [this, if_false]
    have hms1 : p_memsz (seg_copy img_addr phdr s).mem phdr = p_memsz s.mem phdr := by
      refine read32_congr s.mem _ (phdr + 20) ?_
      intro x h1 h2
      rw [hcopy]
      have : ¬ (seg_dst s.mem phdr ≤ x ∧ x < seg_dst s.mem phdr + p_filesz s.mem phdr) := by
        omega
      simp only [this, if_false]
    rw [load_segment_mem]
    unfold seg_zero
    rw [hfs1, hms1]
    unfold seg_extent at hsrc
    generalize (p_memsz s.mem phdr + 2 ^ 32 - p_filesz s.mem phdr) % 2 ^ 32 = z at hsrc ⊢
    have hd : ¬ (seg_dst s.mem phdr + p_filesz s.mem phdr ≤ seg_dst s.mem phdr + k ∧
        seg_dst s.mem phdr + k < seg_dst s.mem phdr + p_filesz s.mem phdr + z) := by omega
    have hs : ¬ (seg_dst s.mem phdr + p_filesz s.mem phdr ≤ seg_src s.mem img_addr phdr + k ∧
        seg_src s.mem img_addr phdr + k < seg_dst s.mem phdr + p_filesz s.mem phdr + z) := by
      omega
    have hd1 : seg_dst s.mem phdr ≤ seg_dst s.mem phdr + k ∧
        seg_dst s.mem phdr + k < seg_dst s.mem phdr + p_filesz s.mem phdr := by omega
    have hs1 : ¬ (seg_dst s.mem phdr ≤ seg_src s.mem img_addr phdr + k ∧
        seg_src s.mem img_addr phdr + k < seg_dst s.mem phdr + p_filesz s.mem phdr) := by omega
    have hres : (seg_copy img_addr phdr s).mem (seg_dst s.mem phdr + k) =
          s.mem (seg_src s.mem img_addr phdr + k) ∧
        (seg_copy img_addr phdr s).mem (seg_src s.mem img_addr phdr + k) =
          s.mem (seg_src s.mem img_addr phdr + k) := by
      rw [hcopy]
      simp only [hd1, hs1, and_self, if_true, if_false, Nat.add_sub_cancel_left]
    split
    · simp only [memset, hd, hs, if_false]
      exact hres
    · exact hres
  exact ⟨hb1, hb2, hmain⟩

/-- Witness for the amended C8: the segment of `img_aligned` (`p_filesz = p_memsz = 64`),
last byte. -/
theorem load_segment_copies_source_witness :
    (seg_src (sample_state img_aligned).mem sample_img_addr sample_phdr +
        p_filesz (sample_state img_aligned).mem sample_phdr ≤
        seg_dst (sample_state img_aligned).mem sample_phdr ∨
      seg_dst (sample_state img_aligned).mem sample_phdr +
        seg_extent (sample_state img_aligned).mem sample_phdr ≤
        seg_src (sample_state img_aligned).mem sample_img_addr sample_phdr) ∧
    (sample_phdr + 24 ≤ seg_dst (sample_state img_aligned).mem sample_phdr ∨
      seg_dst (sample_state img_aligned).mem sample_phdr +
        p_filesz (sample_state img_aligned).mem sample_phdr ≤ sample_phdr + 16) ∧
    seg_src (sample_state img_aligned).mem sample_img_addr sample_phdr +
      p_filesz (sample_state img_aligned).mem sample_phdr ≤ 2 ^ sample_cfg.BITS_PER_LONG ∧
    seg_dst (sample_state img_aligned).mem sample_phdr +
      seg_extent (sample_state img_aligned).mem sample_phdr ≤ 2 ^ sample_cfg.BITS_PER_LONG ∧
    63 < p_filesz (sample_state img_aligned).mem sample_phdr ∧
    (load_segment sample_cfg sample_img_addr 0 0 sample_phdr (sample_state img_aligned)).mem
        (seg_dst (sample_state img_aligned).mem sample_phdr + 63) =
      (sample_state img_aligned).mem
        (seg_src (sample_state img_aligned).mem sample_img_addr sample_phdr + 63) ∧
    (load_segment sample_cfg sample_img_addr 0 0 sample_phdr (sample_state img_aligned)).mem
        (seg_src (sample_state img_aligned).mem sample_img_addr sample_phdr + 63) =
      (sample_state img_aligned).mem
        (seg_src (sample_state img_aligned).mem sample_img_addr sample_phdr + 63) :=
  ⟨by decide, by decide, by decide, by decide, by decide,
    (load_segment_copies_source sample_cfg sample_img_addr 0 0 sample_phdr
      (sample_state img_aligned) 63 (by decide) (by decide) (by decide) (by decide)
      (by decide)).2.2⟩

/-- C9: when the segment's `p_paddr` lies in exactly one row `R` of `addr_mapping`, the
destination used by the loop body is `R.destination_base + (p_paddr - R.low)`, and the copy
of lines 83-84 goes there. -/
theorem load_segment_dst_translated (img_addr phdr : Nat) (s : State) (R : vaddr_range_t)
    (hR : R ∈ addr_mapping) (hA : R.contains (p_paddr s.mem phdr))
    (huniq : ∀ R2 ∈ addr_mapping, R2.contains (p_paddr s.mem phdr) → R2 = R) :
    seg_dst s.mem phdr = R.destination_base + (p_paddr s.mem phdr - R.low) ∧
    seg_copy img_addr phdr s =
      (if p_filesz s.mem phdr ≠ 0 then
        memcpy (R.destination_base + (p_paddr s.mem phdr - R.low))
          (seg_src s.mem img_addr phdr) (p_filesz s.mem phdr) s
       else s) := by
  have hd : seg_dst s.mem phdr = R.destination_base + (p_paddr s.mem phdr - R.low) :=
    set_img_va_to_pa_of_unique _ R addr_mapping hR hA huniq
  refine ⟨hd, ?_⟩
  unfold seg_copy; rw [hd]

/-- Witness for C9: `0x40000010` lies only in the row `{0x3FFC0000, 0x4003FFFF, 0x07280000}`
and is translated to `0x07280000 + (0x40000010 - 0x3FFC0000) = 0x072C0010`. -/
theorem load_segment_dst_translated_witness :
    (⟨0x3FFC0000, 0x4003FFFF, 0x07280000⟩ : vaddr_range_t) ∈ addr_mapping ∧
    p_paddr (sample_state img_sram).mem sample_phdr = 0x40000010 ∧
    seg_dst (sample_state img_sram).mem sample_phdr = 0x072C0010 :=
  ⟨by decide, by decide,
    (load_segment_dst_translated sample_img_addr sample_phdr (sample_state img_sram)
      ⟨0x3FFC0000, 0x4003FFFF, 0x07280000⟩ (by decide) (by decide) (by decide)).1.trans
      (by decide)⟩

/-- C10: in every run that passes verification, everything up to the return of `load_image`
contains no write to the config-block, start-address or clock register, and what follows is
exactly: the hold write, the literal config-block reset/gating write, the write of the
resolved entry (the caller's run address if non-zero, otherwise the image's `e_entry`) to the
start-address register, the read-modify-write setting the core-reset and APB-debug-reset
bits, and the clock-gating read-modify-write. -/
theorem start_address_write_order (cfg : Platform) (img_addr run_ddr riscv_id : Nat)
    (s : State)
    (hv : ¬ (cfg.CONFIG_SUNXI_VERIFY_RISCV = true ∧
      cfg.sunxi_verify_riscv s.mem img_addr 0 riscv_id < 0)) :
    ∃ before,
      (∀ e ∈ before, isCoreRegWrite e = false) ∧
      (sunxi_riscv_init cfg img_addr run_ddr riscv_id s).2.trace =
        s.trace ++ before ++
        [Event.writel 0 Reg.RISCV_CFG_BGR_REG,
         Event.writel (cfg.BIT_RISCV_CFG_RST ||| cfg.BIT_RISCV_CFG_GATING) Reg.RISCV_CFG_BGR_REG,
         Event.writel (if run_ddr = 0 then e_entry s.mem img_addr else run_ddr)
           Reg.RISCV_STA_ADD_REG,
         Event.readl Reg.RISCV_CFG_BGR_REG,
         Event.writel ((cfg.BIT_RISCV_CFG_RST ||| cfg.BIT_RISCV_CFG_GATING) |||
           (cfg.BIT_RISCV_CORE_RST ||| cfg.BIT_RISCV_APB_DB_RST)) Reg.RISCV_CFG_BGR_REG,
         Event.readl Reg.RISCV_CLK_REG,
         Event.writel (s.regs Reg.RISCV_CLK_REG ||| cfg.BIT_RISCV_CLK_GATING)
           Reg.RISCV_CLK_REG] := by
  obtain ⟨before, hb, hnw, _⟩ := trace_at_load_return cfg img_addr riscv_id s
  have hp := (sunxi_riscv_init_pass cfg img_addr run_ddr riscv_id s hv).2
  rw [hb] at hp
  exact ⟨before, hnw, hp⟩

/-- Witness for C10: the run on `img_aligned` with requested run address 0 writes the
image's `e_entry = 0x40400000` to the start-address register. -/
theorem start_address_write_order_witness :
    ¬ (sample_cfg.CONFIG_SUNXI_VERIFY_RISCV = true ∧
      sample_cfg.sunxi_verify_riscv (sample_state img_aligned).mem sample_img_addr 0 0 < 0) ∧
    e_entry (sample_state img_aligned).mem sample_img_addr = 0x40400000 ∧
    ∃ before,
      (∀ e ∈ before, isCoreRegWrite e = false) ∧
      (sunxi_riscv_init sample_cfg sample_img_addr 0 0 (sample_state img_aligned)).2.trace =
        (sample_state img_aligned).trace ++ before ++
        [Event.writel 0 Reg.RISCV_CFG_BGR_REG,
         Event.writel (sample_cfg.BIT_RISCV_CFG_RST ||| sample_cfg.BIT_RISCV_CFG_GATING)
           Reg.RISCV_CFG_BGR_REG,
         Event.writel
           (if 0 = 0 then e_entry (sample_state img_aligned).mem sample_img_addr else 0)
           Reg.RISCV_STA_ADD_REG,
         Event.readl Reg.RISCV_CFG_BGR_REG,
         Event.writel ((sample_cfg.BIT_RISCV_CFG_RST ||| sample_cfg.BIT_RISCV_CFG_GATING) |||
           (sample_cfg.BIT_RISCV_CORE_RST ||| sample_cfg.BIT_RISCV_APB_DB_RST))
           Reg.RISCV_CFG_BGR_REG,
         Event.readl Reg.RISCV_CLK_REG,
         Event.writel ((sample_state img_aligned).regs Reg.RISCV_CLK_REG |||
           sample_cfg.BIT_RISCV_CLK_GATING) Reg.RISCV_CLK_REG] :=
  ⟨by decide, by decide,
    start_address_write_order sample_cfg sample_img_addr 0 0 (sample_state img_aligned)
      (by decide)⟩

/-- C11: with registers that return the last value written, after a run that is not rejected
by the verifier `RISCV_CFG_BGR_REG` holds exactly
`BIT_RISCV_CFG_RST | BIT_RISCV_CFG_GATING | BIT_RISCV_CORE_RST | BIT_RISCV_APB_DB_RST`,
whatever the register held before; the step-4 value `BIT_RISCV_CFG_RST | BIT_RISCV_CFG_GATING`
and the step-6 value, which adds the two release bits to it, are both written. -/
theorem cfg_bgr_final_value (cfg : Platform) (img_addr run_ddr riscv_id : Nat) (s : State)
    (hv : ¬ (cfg.CONFIG_SUNXI_VERIFY_RISCV = true ∧
      cfg.sunxi_verify_riscv s.mem img_addr 0 riscv_id < 0)) :
    (sunxi_riscv_init cfg img_addr run_ddr riscv_id s).2.regs Reg.RISCV_CFG_BGR_REG =
      cfg.BIT_RISCV_CFG_RST ||| cfg.BIT_RISCV_CFG_GATING ||| cfg.BIT_RISCV_CORE_RST |||
        cfg.BIT_RISCV_APB_DB_RST ∧
    Event.writel (cfg.BIT_RISCV_CFG_RST ||| cfg.BIT_RISCV_CFG_GATING) Reg.RISCV_CFG_BGR_REG ∈
      (sunxi_riscv_init cfg img_addr run_ddr riscv_id s).2.trace ∧
    Event.writel (cfg.BIT_RISCV_CFG_RST ||| cfg.BIT_RISCV_CFG_GATING |||
        (cfg.BIT_RISCV_CORE_RST ||| cfg.BIT_RISCV_APB_DB_RST)) Reg.RISCV_CFG_BGR_REG ∈
      (sunxi_riscv_init cfg img_addr run_ddr riscv_id s).2.trace := by
  have hr := (sunxi_riscv_init_regs cfg img_addr run_ddr riscv_id s hv).2.1
  have ht := (sunxi_riscv_init_pass cfg img_addr run_ddr riscv_id s hv).2
  refine ⟨?_, ?_, ?_⟩
  · rw [hr, Nat.lor_assoc (cfg.BIT_RISCV_CFG_RST ||| cfg.BIT_RISCV_CFG_GATING)]
  · rw [ht]; simp
  · rw [ht]; simp

/-- Witness for C11: the run on `img_aligned` from a register file holding `0xFFFFFFFF`
everywhere leaves `0x70001` in `RISCV_CFG_BGR_REG`. -/
theorem cfg_bgr_final_value_witness :
    ¬ (sample_cfg.CONFIG_SUNXI_VERIFY_RISCV = true ∧
      sample_cfg.sunxi_verify_riscv (sample_state img_aligned).mem sample_img_addr 0 0 < 0) ∧
    (sunxi_riscv_init sample_cfg sample_img_addr 0 0
        { sample_state img_aligned with regs := fun _ => 0xFFFFFFFF }).2.regs
        Reg.RISCV_CFG_BGR_REG = 0x70001 :=
  ⟨by decide,
    (cfg_bgr_final_value sample_cfg sample_img_addr 0 0
      { sample_state img_aligned with regs := fun _ => 0xFFFFFFFF } (by decide)).1.trans
      (by decide)⟩

/-- C12: with a cache line of `2 ^ k` bytes and an `unsigned long` of at least 32 bits, every
iteration ends with a `flush_cache` whose start address is a multiple of the line size, is
at most the translated destination `dst`, and is greater than `dst` minus the line size. -/
theorem flush_start_aligned (cfg : Platform) (img_addr riscv_id i phdr : Nat) (s : State)
    (k : Nat) (hL : cfg.CONFIG_SYS_CACHELINE_SIZE = 2 ^ k) (hW : 32 ≤ cfg.BITS_PER_LONG) :
    (load_segment cfg img_addr riscv_id i phdr s).trace.getLast? =
      some (Event.flush_cache (ROUND_DOWN_CACHE cfg (seg_dst s.mem phdr))
        (ROUND_UP_CACHE cfg
          (p_filesz (load_segment cfg img_addr riscv_id i phdr s).mem phdr))) ∧
    cfg.CONFIG_SYS_CACHELINE_SIZE ∣ ROUND_DOWN_CACHE cfg (seg_dst s.mem phdr) ∧
    ROUND_DOWN_CACHE cfg (seg_dst s.mem phdr) ≤ seg_dst s.mem phdr ∧
    seg_dst s.mem phdr <
      ROUND_DOWN_CACHE cfg (seg_dst s.mem phdr) + cfg.CONFIG_SYS_CACHELINE_SIZE := by
  have hd := seg_dst_lt s.mem phdr
  have hpow : (2 : Nat) ^ 32 ≤ 2 ^ cfg.BITS_PER_LONG :=
    Nat.pow_le_pow_right (by decide) hW
  have hmod : seg_dst s.mem phdr % 2 ^ cfg.BITS_PER_LONG = seg_dst s.mem phdr :=
    Nat.mod_eq_of_lt (by omega)
  have hrd : ROUND_DOWN_CACHE cfg (seg_dst s.mem phdr) =
      seg_dst s.mem phdr - seg_dst s.mem phdr % 2 ^ k := by
    unfold ROUND_DOWN_CACHE
    rw [hL, ROUND_DOWN_pow_two, hmod]
  have hpos : 0 < 2 ^ k := Nat.two_pow_pos k
  have hlt := Nat.mod_lt (seg_dst s.mem phdr) hpos
  have hle := Nat.mod_le (seg_dst s.mem phdr) (2 ^ k)
  refine ⟨?_, ?_, ?_, ?_⟩
  · rw [load_segment_trace]; simp
  · rw [hrd, hL]; exact Nat.dvd_sub_mod _
  · rw [hrd]; omega
  · rw [hrd, hL]; omega

/-- Witness for C12: the destination `0x40400001` of `img_unaligned` with 64-byte lines; the
flush starts at `0x40400000`. -/
theorem flush_start_aligned_witness :
    sample_cfg.CONFIG_SYS_CACHELINE_SIZE = 2 ^ 6 ∧ 32 ≤ sample_cfg.BITS_PER_LONG ∧
    seg_dst (sample_state img_unaligned).mem sample_phdr = 0x40400001 ∧
    ROUND_DOWN_CACHE sample_cfg (seg_dst (sample_state img_unaligned).mem sample_phdr) =
      0x40400000 ∧
    sample_cfg.CONFIG_SYS_CACHELINE_SIZE ∣
      ROUND_DOWN_CACHE sample_cfg (seg_dst (sample_state img_unaligned).mem sample_phdr) :=
  ⟨by decide, by decide, by decide, by decide,
    (flush_start_aligned sample_cfg sample_img_addr 0 0 sample_phdr
      (sample_state img_unaligned) 6 (by decide) (by decide)).2.1⟩

/-- C13: every row of `addr_mapping` has `low ≤ high`, the intervals of two distinct rows are
disjoint, and hence an address lies in at most one row. -/
theorem addr_mapping_ranges_disjoint :
    (∀ r ∈ addr_mapping, r.low ≤ r.high) ∧
    (∀ r1 ∈ addr_mapping, ∀ r2 ∈ addr_mapping, r1 ≠ r2 →
      r1.high < r2.low ∨ r2.high < r1.low) ∧
    (∀ (A : Nat), ∀ r1 ∈ addr_mapping, ∀ r2 ∈ addr_mapping,
      r1.contains A → r2.contains A → r1 = r2) := by
  refine ⟨by decide, by decide, ?_⟩
  intro A r1 h1 r2 h2 c1 c2
  simp only [addr_mapping, List.mem_cons, List.mem_singleton, List.not_mem_nil, or_false]
    at h1 h2
  unfold vaddr_range_t.contains at c1 c2
  rcases h1 with rfl | rfl <;> rcases h2 with rfl | rfl <;> simp at c1 c2 ⊢ <;> omega

/-- C14, as stated, fails: `img_self_phnum` has `e_phnum = 3`, but its first segment copies
`1, 0` onto that field; the loop test of line 72 reads it again, and `load_image` returns
after one segment, with `e_phnum = 1` left in the header. -/
theorem e_phnum_overwritten_stops_loop :
    e_phnum (sample_state img_self_phnum).mem sample_img_addr = 3 ∧
    (load_image sample_cfg sample_img_addr 0 (sample_state img_self_phnum)).2.trace =
      [Event.memcpy 0x4800002C 0x48000094 2,
       Event.show_img_version (0x4800002C + 896) 0,
       Event.flush_cache 0x48000000 64] ∧
    e_phnum (load_image sample_cfg sample_img_addr 0 (sample_state img_self_phnum)).2.mem
      sample_img_addr = 1 := by
  refine ⟨by decide, by decide, by decide⟩

/-- C14, amended: for an image whose `e_phnum` field is left as it is by the segments being
loaded, `load_image` returns 0 after processing exactly `e_phnum` segments, the `k`-th being
the `k`-th entry of the table at `img_addr + e_phoff` (a `u32` sum), in increasing order; the
loop terminates, since more fuel does not change the result; and with `e_phnum = 0` nothing
at all is done. -/
theorem load_image_walks_table (cfg : Platform) (img_addr riscv_id : Nat) (s : State)
    (hfix : ∀ k, k ≤ e_phnum s.mem img_addr →
      e_phnum (process_segments cfg img_addr riscv_id
        ((img_addr + e_phoff s.mem img_addr) % 2 ^ 32) k s).mem img_addr =
        e_phnum s.mem img_addr) :
    load_image cfg img_addr riscv_id s =
      (0, process_segments cfg img_addr riscv_id
        ((img_addr + e_phoff s.mem img_addr) % 2 ^ 32) (e_phnum s.mem img_addr) s) ∧
    (∀ extra, load_loop cfg img_addr riscv_id (65536 + extra) 0
        ((img_addr + e_phoff s.mem img_addr) % 2 ^ 32) s =
      (load_image cfg img_addr riscv_id s).2) ∧
    (e_phnum s.mem img_addr = 0 → (load_image cfg img_addr riscv_id s).2 = s) := by
  have hN : e_phnum s.mem img_addr < 65536 := read16_lt _ _
  have hrun := load_loop_process cfg img_addr riscv_id
    ((img_addr + e_phoff s.mem img_addr) % 2 ^ 32) s (e_phnum s.mem img_addr)
    (65535 - e_phnum s.mem img_addr + 1)
    (fun k hk => by rw [hfix k (Nat.le_of_lt hk)]; exact hk)
  have hfuel : 65535 - e_phnum s.mem img_addr + 1 + e_phnum s.mem img_addr = 65536 := by
    omega
  rw [hfuel] at hrun
  have hstop : ¬ e_phnum s.mem img_addr <
      e_phnum (process_segments cfg img_addr riscv_id
        ((img_addr + e_phoff s.mem img_addr) % 2 ^ 32) (e_phnum s.mem img_addr) s).mem
        img_addr := by
    rw [hfix _ (Nat.le_refl _)]; exact Nat.lt_irrefl _
  have hres : load_image cfg img_addr riscv_id s =
      (0, process_segments cfg img_addr riscv_id
        ((img_addr + e_phoff s.mem img_addr) % 2 ^ 32) (e_phnum s.mem img_addr) s) := by
    unfold load_image
    simp only []
    rw [hrun, load_loop, if_neg hstop]
  refine ⟨hres, ?_, ?_⟩
  · intro extra
    exact load_loop_extra_fuel cfg img_addr riscv_id _ s extra
  · intro h0
    rw [hres, h0]
    rfl

/-- Witness for the amended C14: the two segments of `img_two` leave `e_phnum = 2` alone and
are processed in table order. -/
theorem load_image_walks_table_witness :
    (∀ k, k ≤ e_phnum (sample_state img_two).mem sample_img_addr →
      e_phnum (process_segments sample_cfg sample_img_addr 0
        ((sample_img_addr + e_phoff (sample_state img_two).mem sample_img_addr) % 2 ^ 32) k
        (sample_state img_two)).mem sample_img_addr =
        e_phnum (sample_state img_two).mem sample_img_addr) ∧
    e_phnum (sample_state img_two).mem sample_img_addr = 2 ∧
    (load_image sample_cfg sample_img_addr 0 (sample_state img_two)).2.trace =
      [Event.memcpy 0x40400000 0x48000074 16,
       Event.show_img_version (0x40400000 + 896) 0,
       Event.flush_cache 0x40400000 64,
       Event.memcpy 0x40400040 0x48000084 8,
       Event.memset 0x40400048 0 16,
       Event.flush_cache 0x40400040 64] ∧
    load_image sample_cfg sample_img_addr 0 (sample_state img_two) =
      (0, process_segments sample_cfg sample_img_addr 0
        ((sample_img_addr + e_phoff (sample_state img_two).mem sample_img_addr) % 2 ^ 32)
        (e_phnum (sample_state img_two).mem sample_img_addr) (sample_state img_two)) :=
  ⟨by decide, by decide, by decide,
    (load_image_walks_table sample_cfg sample_img_addr 0 (sample_state img_two)
      (by decide)).1⟩

/-- C15: in a run that is not rejected by the verifier, the value written to
`RISCV_PUBSRAM_CFG_REG` is its previous value OR
`(BIT_RISCV_PUBSRAM_RST | BIT_RISCV_PUBSRAM_GATING)`, the value written to `RISCV_CLK_REG` is
its previous value OR `BIT_RISCV_CLK_GATING`, every bit set beforehand in these two
registers is still set afterwards, and the register writes of the run are exactly six: one
to the pubsram-config register, three to the config-block register, one to the
start-address register and one to the clock register. -/
theorem pubsram_clk_bit_setting (cfg : Platform) (img_addr run_ddr riscv_id : Nat) (s : State)
    (hv : ¬ (cfg.CONFIG_SUNXI_VERIFY_RISCV = true ∧
      cfg.sunxi_verify_riscv s.mem img_addr 0 riscv_id < 0)) :
    (sunxi_riscv_init cfg img_addr run_ddr riscv_id s).2.trace.filter isRegWrite =
      s.trace.filter isRegWrite ++
        [Event.writel (s.regs Reg.RISCV_PUBSRAM_CFG_REG |||
            (cfg.BIT_RISCV_PUBSRAM_RST ||| cfg.BIT_RISCV_PUBSRAM_GATING))
           Reg.RISCV_PUBSRAM_CFG_REG,
         Event.writel 0 Reg.RISCV_CFG_BGR_REG,
         Event.writel (cfg.BIT_RISCV_CFG_RST ||| cfg.BIT_RISCV_CFG_GATING) Reg.RISCV_CFG_BGR_REG,
         Event.writel (if run_ddr = 0 then e_entry s.mem img_addr else run_ddr)
           Reg.RISCV_STA_ADD_REG,
         Event.writel ((cfg.BIT_RISCV_CFG_RST ||| cfg.BIT_RISCV_CFG_GATING) |||
           (cfg.BIT_RISCV_CORE_RST ||| cfg.BIT_RISCV_APB_DB_RST)) Reg.RISCV_CFG_BGR_REG,
         Event.writel (s.regs Reg.RISCV_CLK_REG ||| cfg.BIT_RISCV_CLK_GATING)
           Reg.RISCV_CLK_REG] ∧
    (sunxi_riscv_init cfg img_addr run_ddr riscv_id s).2.regs Reg.RISCV_PUBSRAM_CFG_REG =
      s.regs Reg.RISCV_PUBSRAM_CFG_REG |||
        (cfg.BIT_RISCV_PUBSRAM_RST ||| cfg.BIT_RISCV_PUBSRAM_GATING) ∧
    (sunxi_riscv_init cfg img_addr run_ddr riscv_id s).2.regs Reg.RISCV_CLK_REG =
      s.regs Reg.RISCV_CLK_REG ||| cfg.BIT_RISCV_CLK_GATING ∧
    (∀ i, (s.regs Reg.RISCV_PUBSRAM_CFG_REG).testBit i = true →
      ((sunxi_riscv_init cfg img_addr run_ddr riscv_id s).2.regs
        Reg.RISCV_PUBSRAM_CFG_REG).testBit i = true) ∧
    (∀ i, (s.regs Reg.RISCV_CLK_REG).testBit i = true →
      ((sunxi_riscv_init cfg img_addr run_ddr riscv_id s).2.regs
        Reg.RISCV_CLK_REG).testBit i = true) := by
  obtain ⟨hpub, _, _, hclk⟩ := sunxi_riscv_init_regs cfg img_addr run_ddr riscv_id s hv
  rw [Nat.lor_assoc] at hpub
  obtain ⟨before, hb, _, evs, hbe, hl⟩ := trace_at_load_return cfg img_addr riscv_id s
  have ht := (sunxi_riscv_init_pass cfg img_addr run_ddr riscv_id s hv).2
  have hevs : evs.filter isRegWrite = [] := by
    rw [List.filter_eq_nil_iff]
    intro e he
    have := hl e he
    cases e <;> simp_all [isLoadEvent, isRegWrite]
  refine ⟨?_, hpub, hclk, ?_, ?_⟩
  · rw [ht, hb, hbe]
    simp only [List.filter_append, List.filter_cons, isRegWrite, hevs, Nat.lor_assoc]
    simp
  · intro i hi
    rw [hpub, Nat.testBit_or, hi]; rfl
  · intro i hi
    rw [hclk, Nat.testBit_or, hi]; rfl

/-- Witness for C15: the run on `img_aligned` from a register file holding `0x0F0F0F0F`
everywhere. -/
theorem pubsram_clk_bit_setting_witness :
    ¬ (sample_cfg.CONFIG_SUNXI_VERIFY_RISCV = true ∧
      sample_cfg.sunxi_verify_riscv (sample_state img_aligned).mem sample_img_addr 0 0 < 0) ∧
    (sunxi_riscv_init sample_cfg sample_img_addr 0 0
        { sample_state img_aligned with regs := fun _ => 0x0F0F0F0F }).2.regs
        Reg.RISCV_PUBSRAM_CFG_REG = 0x0F0F0F0F ||| (0x10000 ||| 0x1) ∧
    (sunxi_riscv_init sample_cfg sample_img_addr 0 0
        { sample_state img_aligned with regs := fun _ => 0x0F0F0F0F }).2.regs
        Reg.RISCV_CLK_REG = 0x0F0F0F0F ||| 0x80000000 :=
  have h := pubsram_clk_bit_setting sample_cfg sample_img_addr 0 0
    { sample_state img_aligned with regs := fun _ => 0x0F0F0F0F } (by decide)
  ⟨by decide, h.2.1, h.2.2.1⟩

/-- C16: at the segment of `img_short` (`p_filesz = 16`, `p_memsz = 8`) the zero fill is
performed although `p_memsz` is not greater than `p_filesz`, with the wrapped length
`0xFFFFFFF8`; the byte at `dst + 16`, outside `[dst, dst + max(p_filesz, p_memsz))`, is
overwritten with zero, and so is the image itself at `0x48000000`. -/
theorem zero_fill_length_wraps :
    seg_dst (sample_state img_short).mem sample_phdr = 0x40400000 ∧
    p_filesz (sample_state img_short).mem sample_phdr = 16 ∧
    p_memsz (sample_state img_short).mem sample_phdr = 8 ∧
    (load_segment sample_cfg sample_img_addr 0 0 sample_phdr (sample_state img_short)).trace =
      [Event.memcpy 0x40400000 0x48000054 16,
       Event.memset 0x40400010 0 0xFFFFFFF8,
       Event.show_img_version (0x40400000 + 896) 0,
       Event.flush_cache 0x40400000 0] ∧
    (sample_state img_short).mem (0x40400000 + 16) = 0xFF ∧
    (load_segment sample_cfg sample_img_addr 0 0 sample_phdr (sample_state img_short)).mem
      (0x40400000 + 16) = 0 ∧
    (sample_state img_short).mem (0x48000000 + 44) = 1 ∧
    (load_segment sample_cfg sample_img_addr 0 0 sample_phdr (sample_state img_short)).mem
      (0x48000000 + 44) = 0 := by
  refine ⟨by decide, by decide, by decide, by decide, by decide, by decide, by decide,
    by decide⟩

/-- C17: over `addr_mapping`, for addresses `A` and `B` that each lie in some row, the
translation stays below `2 ^ 32`, lands in the window `[0x07280000, 0x072FFFFF]` or in the
window `[0x40400000, 0x7FFFFFFF]`, and is injective: equal translations force `A = B`. -/
theorem addr_mapping_translation_injective (A B : Nat)
    (hA : ∃ r ∈ addr_mapping, r.contains A) (hB : ∃ r ∈ addr_mapping, r.contains B) :
    set_img_va_to_pa A addr_mapping addr_mapping.length < 2 ^ 32 ∧
    ((0x07280000 ≤ set_img_va_to_pa A addr_mapping addr_mapping.length ∧
        set_img_va_to_pa A addr_mapping addr_mapping.length ≤ 0x072FFFFF) ∨
      (0x40400000 ≤ set_img_va_to_pa A addr_mapping addr_mapping.length ∧
        set_img_va_to_pa A addr_mapping addr_mapping.length ≤ 0x7FFFFFFF)) ∧
    (set_img_va_to_pa A addr_mapping addr_mapping.length =
        set_img_va_to_pa B addr_mapping addr_mapping.length → A = B) := by
  simp only [addr_mapping, List.mem_cons, List.mem_singleton, List.not_mem_nil, or_false,
    exists_eq_or_imp, exists_eq_left, vaddr_range_t.contains] at hA hB
  simp only [addr_mapping, List.length_cons, List.length_nil, set_img_va_to_pa,
    vaddr_range_t.contains]
  refine ⟨?_, ?_, ?_⟩
  · split
    · omega
    · split <;> omega
  · split
    · omega
    · split <;> omega
  · split <;> split <;> (try split) <;> (try split) <;> omega

/-- Witness for C17: `0x3FFC0000` (first row) and `0x40400000` (second row) are translated to
`0x07280000` and `0x40400000`. -/
theorem addr_mapping_translation_injective_witness :
    (∃ r ∈ addr_mapping, r.contains 0x3FFC0000) ∧
    (∃ r ∈ addr_mapping, r.contains 0x40400000) ∧
    set_img_va_to_pa 0x3FFC0000 addr_mapping addr_mapping.length = 0x07280000 ∧
    set_img_va_to_pa 0x40400000 addr_mapping addr_mapping.length = 0x40400000 ∧
    set_img_va_to_pa 0x3FFC0000 addr_mapping addr_mapping.length < 2 ^ 32 :=
  ⟨by decide, by decide, by decide, by decide,
    (addr_mapping_translation_injective 0x3FFC0000 0x40400000 (by decide) (by decide)).1⟩

end Riscv
